import Mathlib

/-!
Verification of the flashcastr signup/identity-linking workflow.

The definitions below are a shallow embedding of the signup pipeline:
the Postgres upsert operations over the `flashcastr_users` and
`flashcastr_flashes` tables, the paginated flash-fetch loop, the
`finalizeSignupProcess` pipeline of `SignupOperations`, and the
`pollSignupStatus` / `initiateSignup` GraphQL resolvers.  External
services (Neynar identity lookups, the invaders.fun activity API, the
AEAD encryption of the signer secret) are modelled as environment
records holding the responses a given call observes; database tables
are lists of rows, and the Postgres ON CONFLICT upserts are explicit
keyed list updates.
-/

namespace Flashcastr

/-- Generic keyed upsert over a list of rows, modelling a Postgres
INSERT .. ON CONFLICT (key) DO UPDATE that rewrites every listed column
of the conflicting row from the incoming row.  If a row with the same
key exists it is replaced in place by `v`; otherwise `v` is appended. -/
def upsertBy {α : Type} (key : α → Nat) (v : α) (rows : List α) : List α :=
  if ∃ r ∈ rows, key r = key v then
    rows.map fun r => if key r = key v then v else r
  else
    rows ++ [v]

/-- First row whose key equals `k`, modelling SELECT .. WHERE key = k
followed by taking `result[0]`. -/
def findByKey {α : Type} (key : α → Nat) (k : Nat) (rows : List α) : Option α :=
  rows.find? fun r => key r == k

/-- Left fold of keyed upserts, modelling a multi-row INSERT .. ON
CONFLICT DO UPDATE processed row by row. -/
def insertManyBy {α : Type} (key : α → Nat) (rows : List α) (vs : List α) : List α :=
  vs.foldl (fun acc v => upsertBy key v acc) rows

theorem find?_map_replace {α : Type} (key : α → Nat) (v : α) :
    ∀ rows : List α, (∃ r ∈ rows, key r = key v) →
      ((rows.map fun r => if key r = key v then v else r).find? fun r => key r == key v)
        = some v := by
  intro rows
  induction rows with
  | nil => intro h; simp at h
  | cons r rs ih =>
    intro h
    by_cases hr : key r = key v
    · have hmap : ((r :: rs).map fun x => if key x = key v then v else x)
          = v :: (rs.map fun x => if key x = key v then v else x) := by simp [hr]
      rw [hmap, List.find?_cons_of_pos]
      simp
    · have h' : ∃ x ∈ rs, key x = key v := by
        rcases h with ⟨x, hx, hkx⟩
        rcases List.mem_cons.mp hx with rfl | hx'
        · exact absurd hkx hr
        · exact ⟨x, hx', hkx⟩
      have hmap : ((r :: rs).map fun x => if key x = key v then v else x)
          = r :: (rs.map fun x => if key x = key v then v else x) := by simp [hr]
      rw [hmap, List.find?_cons_of_neg]
      · exact ih h'
      · simp [hr]

theorem find?_append_fresh {α : Type} (key : α → Nat) (v : α) :
    ∀ rows : List α, ¬(∃ r ∈ rows, key r = key v) →
      ((rows ++ [v]).find? fun r => key r == key v) = some v := by
  intro rows
  induction rows with
  | nil =>
    intro _
    rw [List.nil_append, List.find?_cons_of_pos]
    simp
  | cons r rs ih =>
    intro h
    have hr : ¬ key r = key v := fun hk => h ⟨r, List.mem_cons_self r rs, hk⟩
    have h' : ¬(∃ x ∈ rs, key x = key v) := fun ⟨x, hx, hkx⟩ =>
      h ⟨x, List.mem_cons_of_mem r hx, hkx⟩
    rw [List.cons_append, List.find?_cons_of_neg]
    · exact ih h'
    · simp [hr]

/-- After a keyed upsert of `v`, looking the key up returns exactly `v`. -/
theorem findByKey_upsertBy {α : Type} (key : α → Nat) (v : α) (rows : List α) :
    findByKey key (key v) (upsertBy key v rows) = some v := by
  unfold upsertBy findByKey
  split
  · exact find?_map_replace key v rows (by assumption)
  · exact find?_append_fresh key v rows (by assumption)

/-- The key multiset after an upsert: unchanged on conflict, the new key
appended otherwise. -/
theorem map_key_upsertBy {α : Type} (key : α → Nat) (v : α) (rows : List α) :
    (upsertBy key v rows).map key =
      if ∃ r ∈ rows, key r = key v then rows.map key else rows.map key ++ [key v] := by
  unfold upsertBy
  split
  · rw [List.map_map]
    refine List.map_congr_left ?_
    intro r _
    by_cases hr : key r = key v
    · simp [hr]
    · simp [hr]
  · simp

/-- Keyed upsert preserves distinctness of the key column, i.e. the
UNIQUE constraint on the conflict target. -/
theorem nodup_upsertBy {α : Type} (key : α → Nat) (v : α) (rows : List α)
    (h : (rows.map key).Nodup) : ((upsertBy key v rows).map key).Nodup := by
  rw [map_key_upsertBy]
  split
  · exact h
  · rename_i hnew
    have hv : key v ∉ rows.map key := by
      intro hmem
      rcases List.mem_map.mp hmem with ⟨r, hr, hkr⟩
      exact hnew ⟨r, hr, hkr⟩
    simp [List.nodup_append, h, hv]

/-- Bulk keyed upsert preserves distinctness of the key column. -/
theorem nodup_insertManyBy {α : Type} (key : α → Nat) (vs : List α) :
    ∀ rows : List α, (rows.map key).Nodup → ((insertManyBy key rows vs).map key).Nodup := by
  induction vs with
  | nil => intro rows h; simpa [insertManyBy] using h
  | cons v vs ih =>
    intro rows h
    have h1 : ((upsertBy key v rows).map key).Nodup := nodup_upsertBy key v rows h
    simpa [insertManyBy] using ih (upsertBy key v rows) h1

/-- When every incoming key is fresh and the incoming keys are pairwise
distinct, a bulk upsert appends exactly the incoming rows' keys. -/
theorem map_key_insertManyBy_fresh {α : Type} (key : α → Nat) (vs : List α) :
    ∀ rows : List α, (∀ v ∈ vs, key v ∉ rows.map key) → (vs.map key).Nodup →
      (insertManyBy key rows vs).map key = rows.map key ++ vs.map key := by
  induction vs with
  | nil => intro rows _ _; simp [insertManyBy]
  | cons v vs ih =>
    intro rows hfresh hnd
    have hvfresh : key v ∉ rows.map key := hfresh v (List.mem_cons_self v vs)
    have hnoconf : ¬(∃ r ∈ rows, key r = key v) := by
      intro hc
      rcases hc with ⟨r, hr, hkr⟩
      exact hvfresh (List.mem_map.mpr ⟨r, hr, hkr⟩)
    have hkeys : (upsertBy key v rows).map key = rows.map key ++ [key v] := by
      rw [map_key_upsertBy]; simp [hnoconf]
    have hnd' : (vs.map key).Nodup := (List.nodup_cons.mp (by simpa using hnd)).2
    have hvne : key v ∉ vs.map key := (List.nodup_cons.mp (by simpa using hnd)).1
    have hfresh' : ∀ w ∈ vs, key w ∉ (upsertBy key v rows).map key := by
      intro w hw
      rw [hkeys]
      intro hmem
      rcases List.mem_append.mp hmem with hmem' | hmem'
      · exact hfresh w (List.mem_cons_of_mem v hw) hmem'
      · have : key w = key v := by simpa using hmem'
        exact hvne (this ▸ List.mem_map.mpr ⟨w, hw, rfl⟩)
    have := ih (upsertBy key v rows) hfresh' hnd'
    simp only [insertManyBy, List.foldl_cons] at *
    rw [this, hkeys]
    simp

/-- Row count of a bulk upsert of all-fresh, pairwise distinct keys. -/
theorem length_insertManyBy_fresh {α : Type} (key : α → Nat) (vs : List α)
    (rows : List α) (hfresh : ∀ v ∈ vs, key v ∉ rows.map key)
    (hnd : (vs.map key).Nodup) :
    (insertManyBy key rows vs).length = rows.length + vs.length := by
  have h := map_key_insertManyBy_fresh key vs rows hfresh hnd
  have := congrArg List.length h
  simpa using this

/-- JS String.prototype.trim over the character list: strip leading and
trailing whitespace. -/
def trimChars (s : String) : String :=
  ⟨((s.data.dropWhile Char.isWhitespace).reverse.dropWhile Char.isWhitespace).reverse⟩

/-- JS String.prototype.toLowerCase over the character list (ASCII
case mapping, as applied to these usernames). -/
def lowerStr (s : String) : String :=
  ⟨s.data.map Char.toLower⟩

/-- JS String.prototype.toUpperCase over the character list (ASCII
case mapping, as applied to these status strings). -/
def upperStr (s : String) : String :=
  ⟨s.data.map Char.toUpper⟩

/-- Raw activity item returned by the invaders.fun flashes API
(interface Flash in src/utils/api.invaders.fun/flashes.ts). -/
structure Flash where
  flash_id : Nat
  city : String
  img : String
  ipfs_cid : Option String
  player : String
  text : String
  timestamp : Nat
deriving Repr, DecidableEq

/-- One page of the flashes query: items plus the hasNext flag. -/
structure Page where
  items : List Flash
  hasNext : Bool
deriving Repr, DecidableEq

/-- Argument record of PostgresFlashcastrUsers.insert (the TS User type). -/
structure UserInput where
  fid : Nat
  username : String
  signer_uuid : String
  auto_cast : Bool
deriving Repr, DecidableEq

/-- Stored row of the flashcastr_users table (non-timestamp columns). -/
structure UserRow where
  fid : Nat
  username : String
  signer_uuid : String
  auto_cast : Bool
  deleted : Bool
deriving Repr, DecidableEq

/-- Argument record of PostgresFlashcastrFlashes.insertMany
(the TS FlashcastrFlash type). -/
structure FlashInput where
  flash_id : Nat
  user_fid : Nat
  user_username : String
  user_pfp_url : String
  cast_hash : Option String
deriving Repr, DecidableEq

/-- Stored row of the flashcastr_flashes table (non-timestamp columns). -/
structure FlashRow where
  flash_id : Nat
  user_fid : Nat
  user_username : String
  user_pfp_url : String
  cast_hash : Option String
  deleted : Bool
deriving Repr, DecidableEq

/-- The row written for a user: the VALUES clause inserts the four
fields of the input and the literal false for deleted, and the ON
CONFLICT DO UPDATE SET clause rewrites exactly those columns, so the
landed row is the same in both cases. -/
def rowOfUser (u : UserInput) : UserRow :=
  ⟨u.fid, u.username, u.signer_uuid, u.auto_cast, false⟩

/-- The row written for a flash: VALUES pushes the five input fields
plus the literal false for deleted, and ON CONFLICT DO UPDATE SET
rewrites deleted, user_fid, user_username, user_pfp_url and cast_hash,
so the landed row is the same in both cases. -/
def rowOfFlash (f : FlashInput) : FlashRow :=
  ⟨f.flash_id, f.user_fid, f.user_username, f.user_pfp_url, f.cast_hash, false⟩

/-- The two tables the signup workflow writes. -/
structure Db where
  users : List UserRow
  flashes : List FlashRow
deriving Repr, DecidableEq

/-- PostgresFlashcastrUsers.insert: INSERT INTO flashcastr_users
(fid, username, signer_uuid, auto_cast, deleted) VALUES (.., false)
ON CONFLICT (fid) DO UPDATE SET deleted = false, username =
EXCLUDED.username, signer_uuid = EXCLUDED.signer_uuid, auto_cast =
EXCLUDED.auto_cast. -/
def usersInsert (rows : List UserRow) (u : UserInput) : List UserRow :=
  upsertBy UserRow.fid (rowOfUser u) rows

/-- PostgresFlashcastrUsers.getByFid: SELECT * FROM flashcastr_users
WHERE fid = $1, taking result[0]. -/
def getByFid (rows : List UserRow) (fid : Nat) : Option UserRow :=
  findByKey UserRow.fid fid rows

/-- PostgresFlashcastrFlashes.insertMany: multi-row INSERT INTO
flashcastr_flashes ON CONFLICT (flash_id) DO UPDATE SET deleted =
false, user_fid = EXCLUDED.user_fid, user_username =
EXCLUDED.user_username, user_pfp_url = EXCLUDED.user_pfp_url,
cast_hash = EXCLUDED.cast_hash. -/
def flashesInsertMany (rows : List FlashRow) (fs : List FlashInput) : List FlashRow :=
  insertManyBy FlashRow.flash_id rows (fs.map rowOfFlash)

/-- Fixed page size of the flash import loop (FLASH_FETCH_LIMIT). -/
def FLASH_FETCH_LIMIT : Nat := 20

/-- Hard ceiling on imported flashes (MAX_FLASHES_TO_INSERT). -/
def MAX_FLASHES_TO_INSERT : Nat := 7000

/-- The do/while paging loop of _fetchAllFlashesForPlayer, driven by the
finite list of responses the external service returns to this call, in
call order.  Each iteration records the offset it requested, appends the
returned items and continues while hasNext is true; a rejected fetch is
caught by the surrounding try and the whole import collapses to the
empty list.  The result is none when the response list runs out while
hasNext is still true (the environment does not determine the next
response).  Returns the collected flashes and the list of requested
offsets. -/
def pagesLoop : List (Except String Page) → Nat → List Flash → List Nat →
    Option (List Flash × List Nat)
  | [], _, _, _ => none
  | Except.error _ :: _, offset, _, calls => some ([], calls ++ [offset])
  | Except.ok p :: rest, offset, acc, calls =>
    if p.hasNext then
      pagesLoop rest (offset + FLASH_FETCH_LIMIT) (acc ++ p.items) (calls ++ [offset])
    else
      some (acc ++ p.items, calls ++ [offset])

/-- SignupOperations._fetchAllFlashesForPlayer: page through getFlashes
from offset 0 with the fixed page size. -/
def fetchAllFlashes (pages : List (Except String Page)) : Option (List Flash × List Nat) :=
  pagesLoop pages 0 [] []

/-- A Neynar bulk-user entry: username and pfp_url may each be absent. -/
structure NeynarUser where
  username : Option String
  pfp_url : Option String
deriving Repr, DecidableEq

/-- External responses observed by one finalizeSignupProcess call:
the configured encryption key (none models an unset
SIGNER_ENCRYPTION_KEY), the Neynar fetchBulkUsers outcome (error, or
the optional first user of the returned list), the flash-API page
responses in call order, and the ciphertext encrypt produced for the
signer secret under this call's randomness. -/
structure Env where
  encryptionKey : Option String
  neynarResp : Except String (Option NeynarUser)
  pages : List (Except String Page)
  encryptedSigner : String
deriving Repr

/-- SignupOperations.finalizeSignupProcess (signup task wired to the
GraphQL resolver; its _fetchNeynarUserDetails helper rethrows both a
failed fetchBulkUsers call and an empty user list, and the caller does
not catch it, so either aborts the pipeline).  The result is none only
when the page-response environment runs out, some (Except.error msg)
when the pipeline throws, and some (Except.ok (db, user)) on success,
carrying the updated tables and the read-back row. -/
def finalizeSignupProcess (env : Env) (db : Db) (fid : Nat)
    (signer_uuid : String) (flashInvadersPlayerName : String) :
    Option (Except String (Db × UserRow)) :=
  match env.encryptionKey with
  | none => some (Except.error "SIGNER_ENCRYPTION_KEY is not set, cannot finalize signup.")
  | some _ =>
    match env.neynarResp with
    | Except.error msg =>
      some (Except.error ("Error fetching Neynar user details for FID. " ++ msg))
    | Except.ok none =>
      some (Except.error "Could not fetch Neynar user details for FID.")
    | Except.ok (some neynarUser) =>
      let pfpUrl := neynarUser.pfp_url.getD ""
      let farcasterUsername := neynarUser.username.getD ""
      match fetchAllFlashes env.pages with
      | none => none
      | some (playerFlashes, _) =>
        let userToStore : UserInput :=
          ⟨fid, flashInvadersPlayerName, env.encryptedSigner, true⟩
        let users1 := usersInsert db.users userToStore
        let flashes1 :=
          if playerFlashes.length > MAX_FLASHES_TO_INSERT then
            db.flashes
          else if playerFlashes.length > 0 then
            flashesInsertMany db.flashes (playerFlashes.map fun f =>
              ⟨f.flash_id, fid, farcasterUsername, pfpUrl, none⟩)
          else
            db.flashes
        match getByFid users1 fid with
        | some row => some (Except.ok (⟨users1, flashes1⟩, row))
        | none => some (Except.error "User not found in DB after finalization.")

/-- Signer record returned by neynarClient.lookupSigner: its status
string and, when present, the fid (0 models a JS-falsy fid). -/
structure SignerLookup where
  status : String
  fid : Option Nat
deriving Repr, DecidableEq

/-- External outcomes observed by one pollSignupStatus call: the
lookupSigner outcome and the outcome finalizeSignupProcess would
produce if invoked. -/
structure PollEnv where
  lookup : Except String SignerLookup
  finalizeOutcome : Except String UserRow
deriving Repr

/-- The user view embedded in the poll response. -/
structure UserView where
  fid : Nat
  username : String
  auto_cast : Bool
deriving Repr, DecidableEq

/-- Structured poll response: status string, optional fid, optional
user view, message. -/
structure PollResponse where
  status : String
  fid : Option Nat
  user : Option UserView
  message : String
deriving Repr, DecidableEq

/-- A thrown GraphQLError: message plus extensions.code. -/
structure GqlError where
  message : String
  code : String
deriving Repr, DecidableEq

/-- The pollSignupStatus resolver of src/index.ts.  Returns the
response (or the thrown GraphQLError) together with a flag recording
whether finalizeSignupProcess was invoked; storage is written only
inside finalize, so a false flag means no storage writes.  The
approved branch requires a JS-truthy fid (present and nonzero); the
fallback branch builds NEYNAR_STATUS_ followed by the upstream status
uppercased. -/
def pollSignupStatus (env : PollEnv) (signer_uuid username : String) :
    Except GqlError PollResponse × Bool :=
  if signer_uuid = "" ∨ username = "" then
    (Except.error ⟨"signer_uuid and username are required for polling signup status.",
      "BAD_USER_INPUT"⟩, false)
  else
    match env.lookup with
    | Except.error e =>
      (Except.ok ⟨"ERROR_NEYNAR_LOOKUP", none, none, e⟩, false)
    | Except.ok signer =>
      if signer.status = "approved" ∧ signer.fid.getD 0 ≠ 0 then
        match env.finalizeOutcome with
        | Except.ok u =>
          (Except.ok ⟨"APPROVED_FINALIZED", some u.fid,
            some ⟨u.fid, u.username, u.auto_cast⟩,
            "User signup finalized successfully."⟩, true)
        | Except.error m =>
          (Except.ok ⟨"ERROR_FINALIZATION", signer.fid, none, m⟩, true)
      else if signer.status = "pending_approval" then
        (Except.ok ⟨"PENDING_APPROVAL", none, none, "Signer approval is pending."⟩, false)
      else if signer.status = "revoked" then
        (Except.ok ⟨"REVOKED", none, none, "Signer request was revoked."⟩, false)
      else
        (Except.ok ⟨"NEYNAR_STATUS_" ++ upperStr signer.status, none, none,
          "Signer status from Neynar: " ++ signer.status⟩, false)

/-- Signer data returned by getSignedKey. -/
structure SignerData where
  signer_uuid : String
  public_key : String
  status : String
  signer_approval_url : Option String
  fid : Option Nat
deriving Repr, DecidableEq

/-- External outcome observed by one initiateSignerCreation call: what
getSignedKey(true) would return if invoked. -/
structure InitiateEnv where
  signedKey : Except String SignerData
deriving Repr

/-- SignupOperations.initiateSignerCreation: rejects a missing or
whitespace-only username, then rejects the reserved username anonymous
(case-insensitively), and only then calls getSignedKey.  The flag
records whether the external getSignedKey call was made; the operation
writes no local state in any branch. -/
def initiateSignerCreation (env : InitiateEnv) (username : String) :
    Except String SignerData × Bool :=
  if username = "" ∨ trimChars username = "" then
    (Except.error "Username is required to initiate signer creation.", false)
  else if lowerStr username = "anonymous" then
    (Except.error "Username anonymous is not allowed.", false)
  else
    match env.signedKey with
    | Except.ok d => (Except.ok d, true)
    | Except.error m => (Except.error ("Failed to create signer key: " ++ m), true)

/-- A single page with hasNext false yields exactly that page's items
with one fetch at offset 0. -/
theorem fetchAllFlashes_single (items : List Flash) :
    fetchAllFlashes [Except.ok ⟨items, false⟩] = some (items, [0]) := by
  simp [fetchAllFlashes, pagesLoop]

/-- C8: for every username that is empty after trimming (in particular
the empty and the all-blank username), initiateSignerCreation fails
with the required-username error before the external getSignedKey call
is made, and writes no local state (the operation writes none in any
branch). -/
theorem initiate_rejects_blank_username (env : InitiateEnv) (username : String)
    (h : trimChars username = "") :
    initiateSignerCreation env username
      = (Except.error "Username is required to initiate signer creation.", false) := by
  unfold initiateSignerCreation
  rw [if_pos (Or.inr h)]

theorem initiate_rejects_blank_username_witness :
    trimChars "   " = "" ∧
    initiateSignerCreation ⟨Except.ok ⟨"sig", "pk", "pending_approval", none, none⟩⟩ "   "
      = (Except.error "Username is required to initiate signer creation.", false) :=
  ⟨by decide, initiate_rejects_blank_username _ _ (by decide)⟩

/-- C10: every username whose lowercase form is anonymous is rejected
with an error before the external getSignedKey call is made, an extra
rejection beyond the emptiness precondition. -/
theorem initiate_rejects_anonymous (env : InitiateEnv) (username : String)
    (h : lowerStr username = "anonymous") :
    ∃ m, initiateSignerCreation env username = (Except.error m, false) := by
  unfold initiateSignerCreation
  by_cases hb : username = "" ∨ trimChars username = ""
  · exact ⟨_, by rw [if_pos hb]⟩
  · exact ⟨_, by rw [if_neg hb, if_pos h]⟩

theorem initiate_rejects_anonymous_witness :
    lowerStr "Anonymous" = "anonymous" ∧
    ∃ m, initiateSignerCreation ⟨Except.ok ⟨"sig", "pk", "pending_approval", none, none⟩⟩
      "Anonymous" = (Except.error m, false) :=
  ⟨by decide, initiate_rejects_anonymous _ _ (by decide)⟩

/-- C9: when the activity service reports hasNext on the first three
pages and not on the fourth, the import loop makes exactly four fetch
calls at offsets 0, 20, 40 and 60, terminates, and collects all
fetched items in order. -/
theorem pagination_four_pages (p1 p2 p3 p4 : Page)
    (h1 : p1.hasNext = true) (h2 : p2.hasNext = true) (h3 : p3.hasNext = true)
    (h4 : p4.hasNext = false) :
    fetchAllFlashes [Except.ok p1, Except.ok p2, Except.ok p3, Except.ok p4]
      = some (p1.items ++ p2.items ++ p3.items ++ p4.items, [0, 20, 40, 60]) := by
  simp [fetchAllFlashes, pagesLoop, h1, h2, h3, h4, FLASH_FETCH_LIMIT, List.append_assoc]

theorem pagination_four_pages_witness :
    fetchAllFlashes [Except.ok ⟨[], true⟩, Except.ok ⟨[], true⟩,
        Except.ok ⟨[], true⟩, Except.ok ⟨[], false⟩]
      = some ([], [0, 20, 40, 60]) := by
  have := pagination_four_pages ⟨[], true⟩ ⟨[], true⟩ ⟨[], true⟩ ⟨[], false⟩ rfl rfl rfl rfl
  simpa using this

/-- C3 (counterexample): an upsert that conflicts on flash_id 1 does
not leave the stored cast_hash untouched; the previously stored post
reference 0xabc is overwritten by the incoming value none, while
soft-delete is cleared and the denormalized fields are refreshed. -/
theorem insertMany_overwrites_cast_hash_cex :
    flashesInsertMany [⟨1, 5, "olduser", "oldpfp", some "0xabc", false⟩]
        [⟨1, 6, "newuser", "newpfp", none⟩]
      = [⟨1, 6, "newuser", "newpfp", none, false⟩] := by
  decide

/-- C3 (amended): on a conflict on an existing flash_id, the upsert
clears soft-delete and refreshes the denormalized display name,
profile-image and owning-handle fields, and also overwrites the stored
cast_hash with the incoming value rather than leaving it unchanged. -/
theorem insertMany_conflict_row (rows : List FlashRow) (f : FlashInput)
    (h : ∃ r ∈ rows, r.flash_id = f.flash_id) :
    findByKey FlashRow.flash_id f.flash_id (flashesInsertMany rows [f])
      = some ⟨f.flash_id, f.user_fid, f.user_username, f.user_pfp_url, f.cast_hash, false⟩ := by
  have hfind := findByKey_upsertBy FlashRow.flash_id (rowOfFlash f) rows
  simpa [flashesInsertMany, insertManyBy, rowOfFlash] using hfind

theorem insertMany_conflict_row_witness :
    (∃ r ∈ [(⟨1, 5, "olduser", "oldpfp", some "0xabc", false⟩ : FlashRow)],
        FlashRow.flash_id r = 1) ∧
    findByKey FlashRow.flash_id 1
        (flashesInsertMany [⟨1, 5, "olduser", "oldpfp", some "0xabc", false⟩]
          [⟨1, 6, "newuser", "newpfp", none⟩])
      = some ⟨1, 6, "newuser", "newpfp", none, false⟩ :=
  ⟨by decide, insertMany_conflict_row _ ⟨1, 6, "newuser", "newpfp", none⟩ (by decide)⟩

/-- C4 (counterexample): re-linking fid 1, whose stored row has the
auto-publish preference switched off and the soft-delete flag set,
with an insert carrying auto_cast true yields a row with auto_cast
true: the existing preference is not preserved but overwritten by the
incoming value, while soft-delete is cleared. -/
theorem usersInsert_overwrites_auto_cast_cex :
    usersInsert [⟨1, "alice", "enc1", false, true⟩] ⟨1, "alice2", "enc2", true⟩
      = [⟨1, "alice2", "enc2", true, false⟩] := by
  decide

/-- C4 (amended): on a conflict on an existing fid (including a
soft-deleted row), the upsert clears soft-delete and overwrites the
display name, secret and auto-publish preference with the incoming
values; the existing preference is not preserved. -/
theorem usersInsert_conflict_row (rows : List UserRow) (u : UserInput)
    (h : ∃ r ∈ rows, r.fid = u.fid) :
    getByFid (usersInsert rows u) u.fid
      = some ⟨u.fid, u.username, u.signer_uuid, u.auto_cast, false⟩ := by
  have hfind := findByKey_upsertBy UserRow.fid (rowOfUser u) rows
  simpa [usersInsert, getByFid, rowOfUser] using hfind

theorem usersInsert_conflict_row_witness :
    (∃ r ∈ [(⟨1, "alice", "enc1", false, true⟩ : UserRow)], UserRow.fid r = 1) ∧
    getByFid (usersInsert [⟨1, "alice", "enc1", false, true⟩] ⟨1, "alice2", "enc2", true⟩) 1
      = some ⟨1, "alice2", "enc2", true, false⟩ :=
  ⟨by decide, usersInsert_conflict_row _ ⟨1, "alice2", "enc2", true⟩ (by decide)⟩

/-- Reading back the fid just upserted returns exactly the landed row. -/
theorem getByFid_usersInsert (rows : List UserRow) (u : UserInput) :
    getByFid (usersInsert rows u) u.fid = some (rowOfUser u) := by
  have h := findByKey_upsertBy UserRow.fid (rowOfUser u) rows
  simpa [usersInsert, getByFid, rowOfUser] using h

/-- Bulk flash upsert preserves distinctness of the flash_id column. -/
theorem nodup_flashesInsertMany (rows : List FlashRow) (fs : List FlashInput)
    (h : (rows.map FlashRow.flash_id).Nodup) :
    ((flashesInsertMany rows fs).map FlashRow.flash_id).Nodup :=
  nodup_insertManyBy FlashRow.flash_id (fs.map rowOfFlash) rows h

/-- Canonical success form of finalizeSignupProcess when the key is
configured, the Neynar lookup returns a user and the paging
environment is complete. -/
theorem finalize_success_shape (env : Env) (db : Db) (fid : Nat) (su pn : String)
    (k : String) (nu : NeynarUser) (fs : List Flash) (cs : List Nat)
    (hk : env.encryptionKey = some k) (hn : env.neynarResp = Except.ok (some nu))
    (hp : fetchAllFlashes env.pages = some (fs, cs)) :
    finalizeSignupProcess env db fid su pn
      = some (Except.ok
          (⟨usersInsert db.users ⟨fid, pn, env.encryptedSigner, true⟩,
            if fs.length > MAX_FLASHES_TO_INSERT then db.flashes
            else if fs.length > 0 then
              flashesInsertMany db.flashes (fs.map fun f =>
                ⟨f.flash_id, fid, nu.username.getD "", nu.pfp_url.getD "", none⟩)
            else db.flashes⟩,
          rowOfUser ⟨fid, pn, env.encryptedSigner, true⟩)) := by
  unfold finalizeSignupProcess
  rw [hk]
  dsimp only
  rw [hn]
  dsimp only
  rw [hp]
  dsimp only
  rw [getByFid_usersInsert db.users ⟨fid, pn, env.encryptedSigner, true⟩]

/-- C2 (counterexample): a finalize call whose Neynar identity lookup
errors does not succeed: the failure propagates out of
finalizeSignupProcess, so no LinkedUser is persisted and no
ActivityRecord rows are written by the call. -/
theorem finalize_lookup_failure_cex :
    finalizeSignupProcess ⟨some "key", Except.error "neynar down", [Except.ok ⟨[], false⟩], "enc"⟩
        ⟨[], []⟩ 7 "sig" "player"
      = some (Except.error "Error fetching Neynar user details for FID. neynar down") := by
  rfl

/-- C2 (amended): in the signup-task variant wired to the GraphQL
resolver, a failed identity-profile lookup (the external call errors or
returns no profile) is fatal: finalizeSignupProcess raises instead of
proceeding, so the LinkedUser is not persisted and no ActivityRecord
rows are written by that call; the error is mapped to
ERROR_FINALIZATION one level up. -/
theorem finalize_lookup_failure_fatal (env : Env) (db : Db) (fid : Nat)
    (su pn : String)
    (h : (∃ m, env.neynarResp = Except.error m) ∨ env.neynarResp = Except.ok none) :
    ∃ msg, finalizeSignupProcess env db fid su pn = some (Except.error msg) := by
  unfold finalizeSignupProcess
  cases hk : env.encryptionKey with
  | none => exact ⟨_, rfl⟩
  | some k =>
    rcases h with ⟨m, hm⟩ | hnone
    · rw [hm]
      exact ⟨_, rfl⟩
    · rw [hnone]
      exact ⟨_, rfl⟩

theorem finalize_lookup_failure_fatal_witness :
    ((∃ m, (Except.error "neynar down" : Except String (Option NeynarUser))
        = Except.error m) ∨
      (Except.error "neynar down" : Except String (Option NeynarUser)) = Except.ok none) ∧
    ∃ msg, finalizeSignupProcess ⟨some "key", Except.error "neynar down", [], "enc"⟩
        ⟨[], []⟩ 7 "sig" "player" = some (Except.error msg) :=
  ⟨Or.inl ⟨"neynar down", rfl⟩,
    finalize_lookup_failure_fatal _ _ 7 "sig" "player" (Or.inl ⟨"neynar down", rfl⟩)⟩

/-- C6 (counterexample): an upstream signer status expired yields the
poll status NEYNAR_STATUS_EXPIRED, not UNKNOWN_EXPIRED, with finalize
not invoked. -/
theorem poll_unknown_status_cex :
    pollSignupStatus ⟨Except.ok ⟨"expired", none⟩, Except.error "unused"⟩ "sig" "player"
        = (Except.ok ⟨"NEYNAR_STATUS_EXPIRED", none, none,
            "Signer status from Neynar: expired"⟩, false)
      ∧ "NEYNAR_STATUS_EXPIRED" ≠ "UNKNOWN_EXPIRED" := by
  constructor
  · rfl
  · decide

/-- C6 (amended): with non-empty arguments and a successful status
lookup, upstream pending_approval maps to PENDING_APPROVAL, upstream
revoked maps to REVOKED, and any other non-approved status s maps to
NEYNAR_STATUS_ followed by s uppercased (not UNKNOWN_ prefixed); in
each of these branches finalize is never invoked, hence no storage
writes occur. -/
theorem poll_status_mapping (env : PollEnv) (s u : String) (info : SignerLookup)
    (hs : s ≠ "") (hu : u ≠ "") (hl : env.lookup = Except.ok info) :
    (info.status = "pending_approval" →
      pollSignupStatus env s u
        = (Except.ok ⟨"PENDING_APPROVAL", none, none, "Signer approval is pending."⟩, false)) ∧
    (info.status = "revoked" →
      pollSignupStatus env s u
        = (Except.ok ⟨"REVOKED", none, none, "Signer request was revoked."⟩, false)) ∧
    (info.status ≠ "approved" → info.status ≠ "pending_approval" → info.status ≠ "revoked" →
      pollSignupStatus env s u
        = (Except.ok ⟨"NEYNAR_STATUS_" ++ upperStr info.status, none, none,
            "Signer status from Neynar: " ++ info.status⟩, false)) := by
  have hne : ¬(s = "" ∨ u = "") := by
    rintro (h | h)
    · exact hs h
    · exact hu h
  refine ⟨?_, ?_, ?_⟩
  · intro hp
    have hc : ¬(info.status = "approved" ∧ info.fid.getD 0 ≠ 0) := by
      intro hc
      rw [hp] at hc
      exact absurd hc.1 (by decide)
    unfold pollSignupStatus
    rw [if_neg hne, hl]
    dsimp only
    rw [if_neg hc, if_pos hp]
  · intro hr
    have hc : ¬(info.status = "approved" ∧ info.fid.getD 0 ≠ 0) := by
      intro hc
      rw [hr] at hc
      exact absurd hc.1 (by decide)
    have hnp : ¬ info.status = "pending_approval" := by
      rw [hr]; decide
    unfold pollSignupStatus
    rw [if_neg hne, hl]
    dsimp only
    rw [if_neg hc, if_neg hnp, if_pos hr]
  · intro ha hp hr
    have hc : ¬(info.status = "approved" ∧ info.fid.getD 0 ≠ 0) := fun hc => ha hc.1
    unfold pollSignupStatus
    rw [if_neg hne, hl]
    dsimp only
    rw [if_neg hc, if_neg hp, if_neg hr]

theorem poll_status_mapping_witness :
    ("sig" : String) ≠ "" ∧ ("player" : String) ≠ "" ∧
    (⟨Except.ok ⟨"pending_approval", none⟩, Except.error "unused"⟩ : PollEnv).lookup
        = Except.ok ⟨"pending_approval", none⟩ ∧
    pollSignupStatus ⟨Except.ok ⟨"pending_approval", none⟩, Except.error "unused"⟩ "sig" "player"
      = (Except.ok ⟨"PENDING_APPROVAL", none, none, "Signer approval is pending."⟩, false) :=
  ⟨by decide, by decide, rfl,
    (poll_status_mapping ⟨Except.ok ⟨"pending_approval", none⟩, Except.error "unused"⟩
      "sig" "player" ⟨"pending_approval", none⟩ (by decide) (by decide) rfl).1 rfl⟩

/-- C7 (counterexample): a pollSignupStatus call with an empty
signer_uuid throws a BAD_USER_INPUT GraphQLError instead of returning
a structured status/message pair. -/
theorem poll_throws_on_empty_args_cex :
    pollSignupStatus ⟨Except.ok ⟨"approved", some 7⟩, Except.ok ⟨7, "alice", "enc", true, false⟩⟩
        "" "alice"
      = (Except.error ⟨"signer_uuid and username are required for polling signup status.",
          "BAD_USER_INPUT"⟩, false) := by
  rfl

/-- C7 (amended): for every pollSignupStatus call with non-empty
signer_uuid and username the resolver returns a structured
status/message pair and never throws; in particular every error raised
by finalize is caught one level up and mapped to a response with
status ERROR_FINALIZATION carrying the error message. -/
theorem poll_structured_response (env : PollEnv) (s u : String)
    (hs : s ≠ "") (hu : u ≠ "") :
    (∃ r, (pollSignupStatus env s u).1 = Except.ok r) ∧
    (∀ info m, env.lookup = Except.ok info → info.status = "approved" →
      info.fid.getD 0 ≠ 0 → env.finalizeOutcome = Except.error m →
      pollSignupStatus env s u = (Except.ok ⟨"ERROR_FINALIZATION", info.fid, none, m⟩, true)) := by
  have hne : ¬(s = "" ∨ u = "") := by
    rintro (h | h)
    · exact hs h
    · exact hu h
  constructor
  · unfold pollSignupStatus
    rw [if_neg hne]
    cases henv : env.lookup with
    | error e => exact ⟨_, rfl⟩
    | ok signer =>
      dsimp only
      by_cases hc : signer.status = "approved" ∧ signer.fid.getD 0 ≠ 0
      · rw [if_pos hc]
        cases hfin : env.finalizeOutcome with
        | ok v => exact ⟨_, rfl⟩
        | error m => exact ⟨_, rfl⟩
      · rw [if_neg hc]
        by_cases hp : signer.status = "pending_approval"
        · rw [if_pos hp]
          exact ⟨_, rfl⟩
        · rw [if_neg hp]
          by_cases hr : signer.status = "revoked"
          · rw [if_pos hr]
            exact ⟨_, rfl⟩
          · rw [if_neg hr]
            exact ⟨_, rfl⟩
  · intro info m hlk happ hfid hfin
    unfold pollSignupStatus
    rw [if_neg hne, hlk]
    dsimp only
    rw [if_pos ⟨happ, hfid⟩, hfin]

theorem poll_structured_response_witness :
    ("sig" : String) ≠ "" ∧ ("player" : String) ≠ "" ∧
    (pollSignupStatus ⟨Except.ok ⟨"approved", some 7⟩, Except.error "db down"⟩ "sig" "player"
      = (Except.ok ⟨"ERROR_FINALIZATION", some 7, none, "db down"⟩, true)) :=
  ⟨by decide, by decide,
    (poll_structured_response ⟨Except.ok ⟨"approved", some 7⟩, Except.error "db down"⟩
        "sig" "player" (by decide) (by decide)).2
      ⟨"approved", some 7⟩ "db down" rfl rfl (by decide) rfl⟩

/-- Flash ids of the attribution inputs finalize builds are exactly the
fetched items' flash ids. -/
theorem flash_ids_of_inputs (fs : List Flash) (fid : Nat) (un pf : String) :
    (((fs.map fun f => (⟨f.flash_id, fid, un, pf, none⟩ : FlashInput)).map rowOfFlash).map
        FlashRow.flash_id) = fs.map Flash.flash_id := by
  simp [List.map_map, rowOfFlash, Function.comp]

/-- Bulk-inserting attribution rows with pairwise distinct flash ids
into an empty table lands one row per fetched item. -/
theorem length_flashesInsertMany_nil (fs : List Flash) (fid : Nat) (un pf : String)
    (hnd : (fs.map Flash.flash_id).Nodup) :
    (flashesInsertMany [] (fs.map fun f => ⟨f.flash_id, fid, un, pf, none⟩)).length
      = fs.length := by
  unfold flashesInsertMany
  have hids := flash_ids_of_inputs fs fid un pf
  have h := length_insertManyBy_fresh FlashRow.flash_id
      ((fs.map fun f => (⟨f.flash_id, fid, un, pf, none⟩ : FlashInput)).map rowOfFlash) []
      (by simp) (by rw [hids]; exact hnd)
  simpa using h

/-- C1: with identical inputs and identical external responses (key
configured, profile lookup successful, paging complete), two
finalize calls in sequence both succeed, the LinkedUser row read back
is field-for-field identical after both calls, and the flash_id column
stays duplicate-free, so no duplicate ActivityRecord row is created
for the same raw-activity id. -/
theorem finalize_idempotent (env : Env) (db : Db) (fid : Nat) (su pn : String)
    (k : String) (nu : NeynarUser) (fs : List Flash) (cs : List Nat)
    (hk : env.encryptionKey = some k) (hn : env.neynarResp = Except.ok (some nu))
    (hp : fetchAllFlashes env.pages = some (fs, cs))
    (hnd : (db.flashes.map FlashRow.flash_id).Nodup) :
    ∃ db1 u1 db2 u2,
      finalizeSignupProcess env db fid su pn = some (Except.ok (db1, u1)) ∧
      finalizeSignupProcess env db1 fid su pn = some (Except.ok (db2, u2)) ∧
      u1 = u2 ∧
      getByFid db1.users fid = some u1 ∧
      getByFid db2.users fid = some u2 ∧
      (db1.flashes.map FlashRow.flash_id).Nodup ∧
      (db2.flashes.map FlashRow.flash_id).Nodup := by
  have h1 := finalize_success_shape env db fid su pn k nu fs cs hk hn hp
  have hnd1 : (((⟨usersInsert db.users ⟨fid, pn, env.encryptedSigner, true⟩,
      if fs.length > MAX_FLASHES_TO_INSERT then db.flashes
      else if fs.length > 0 then
        flashesInsertMany db.flashes (fs.map fun f =>
          ⟨f.flash_id, fid, nu.username.getD "", nu.pfp_url.getD "", none⟩)
      else db.flashes⟩ : Db).flashes).map FlashRow.flash_id).Nodup := by
    by_cases hgt : fs.length > MAX_FLASHES_TO_INSERT
    · simpa [hgt] using hnd
    · by_cases hpos : fs.length > 0
      · simpa [hgt, hpos] using nodup_flashesInsertMany db.flashes _ hnd
      · simpa [hgt, hpos] using hnd
  have h2 := finalize_success_shape env
      ⟨usersInsert db.users ⟨fid, pn, env.encryptedSigner, true⟩,
        if fs.length > MAX_FLASHES_TO_INSERT then db.flashes
        else if fs.length > 0 then
          flashesInsertMany db.flashes (fs.map fun f =>
            ⟨f.flash_id, fid, nu.username.getD "", nu.pfp_url.getD "", none⟩)
        else db.flashes⟩
      fid su pn k nu fs cs hk hn hp
  refine ⟨_, _, _, _, h1, h2, rfl, ?_, ?_, hnd1, ?_⟩
  · exact getByFid_usersInsert db.users ⟨fid, pn, env.encryptedSigner, true⟩
  · exact getByFid_usersInsert _ ⟨fid, pn, env.encryptedSigner, true⟩
  · by_cases hgt : fs.length > MAX_FLASHES_TO_INSERT
    · simpa [hgt] using hnd1
    · by_cases hpos : fs.length > 0
      · simpa [hgt, hpos] using nodup_flashesInsertMany _ _ hnd1
      · simpa [hgt, hpos] using hnd1

theorem finalize_idempotent_witness :
    (⟨some "key", Except.ok (some ⟨some "fc", some "pfp"⟩),
        [Except.ok ⟨[⟨1, "paris", "img", none, "player", "txt", 0⟩], false⟩], "enc"⟩ :
      Env).encryptionKey = some "key" ∧
    ∃ db1 u1 db2 u2,
      finalizeSignupProcess
          ⟨some "key", Except.ok (some ⟨some "fc", some "pfp"⟩),
            [Except.ok ⟨[⟨1, "paris", "img", none, "player", "txt", 0⟩], false⟩], "enc"⟩
          ⟨[], []⟩ 7 "sig" "player" = some (Except.ok (db1, u1)) ∧
      finalizeSignupProcess
          ⟨some "key", Except.ok (some ⟨some "fc", some "pfp"⟩),
            [Except.ok ⟨[⟨1, "paris", "img", none, "player", "txt", 0⟩], false⟩], "enc"⟩
          db1 7 "sig" "player" = some (Except.ok (db2, u2)) ∧
      u1 = u2 ∧
      getByFid db1.users 7 = some u1 ∧
      getByFid db2.users 7 = some u2 ∧
      (db1.flashes.map FlashRow.flash_id).Nodup ∧
      (db2.flashes.map FlashRow.flash_id).Nodup :=
  ⟨rfl,
    finalize_idempotent
      ⟨some "key", Except.ok (some ⟨some "fc", some "pfp"⟩),
        [Except.ok ⟨[⟨1, "paris", "img", none, "player", "txt", 0⟩], false⟩], "enc"⟩
      ⟨[], []⟩ 7 "sig" "player" "key" ⟨some "fc", some "pfp"⟩
      [⟨1, "paris", "img", none, "player", "txt", 0⟩] [0]
      rfl rfl (by rfl) (by decide)⟩

/-- Synthetic flash used to build large concrete imports. -/
def mkFlash (i : Nat) : Flash :=
  ⟨i, "", "", none, "", "", 0⟩

/-- C5: under a complete, successful environment, a finalize call that
imported 7001 flashes still succeeds and leaves the flash table
untouched (zero ActivityRecord writes), while a call that imported
exactly 7000 flashes (distinct ids, empty initial table) succeeds and
lands all 7000 rows. -/
theorem finalize_ceiling (env1 env2 : Env) (db : Db) (fid : Nat) (su pn : String)
    (k1 k2 : String) (nu1 nu2 : NeynarUser)
    (fs1 fs2 : List Flash) (cs1 cs2 : List Nat)
    (hk1 : env1.encryptionKey = some k1) (hn1 : env1.neynarResp = Except.ok (some nu1))
    (hp1 : fetchAllFlashes env1.pages = some (fs1, cs1)) (hl1 : fs1.length = 7001)
    (hk2 : env2.encryptionKey = some k2) (hn2 : env2.neynarResp = Except.ok (some nu2))
    (hp2 : fetchAllFlashes env2.pages = some (fs2, cs2)) (hl2 : fs2.length = 7000)
    (hnd2 : (fs2.map Flash.flash_id).Nodup) (hdb : db.flashes = []) :
    (∃ u, finalizeSignupProcess env1 db fid su pn
        = some (Except.ok
            (⟨usersInsert db.users ⟨fid, pn, env1.encryptedSigner, true⟩, db.flashes⟩, u))) ∧
    (∃ u db2, finalizeSignupProcess env2 db fid su pn = some (Except.ok (db2, u)) ∧
      db2.users = usersInsert db.users ⟨fid, pn, env2.encryptedSigner, true⟩ ∧
      db2.flashes.length = 7000) := by
  constructor
  · have h := finalize_success_shape env1 db fid su pn k1 nu1 fs1 cs1 hk1 hn1 hp1
    rw [hl1, if_pos (show 7001 > MAX_FLASHES_TO_INSERT by decide)] at h
    exact ⟨_, h⟩
  · have h := finalize_success_shape env2 db fid su pn k2 nu2 fs2 cs2 hk2 hn2 hp2
    rw [hl2, if_neg (show ¬(7000 > MAX_FLASHES_TO_INSERT) by decide),
      if_pos (show (7000 : Nat) > 0 by decide)] at h
    refine ⟨_, _, h, rfl, ?_⟩
    dsimp only
    rw [hdb]
    have hlen := length_flashesInsertMany_nil fs2 fid (nu2.username.getD "")
      (nu2.pfp_url.getD "") hnd2
    rw [hlen, hl2]

theorem finalize_ceiling_witness :
    ((List.range 7001).map mkFlash).length = 7001 ∧
    ((List.range 7000).map mkFlash).length = 7000 ∧
    ((((List.range 7000).map mkFlash).map Flash.flash_id).Nodup) ∧
    (∃ u, finalizeSignupProcess
        ⟨some "key", Except.ok (some ⟨some "fc", some "pfp"⟩),
          [Except.ok ⟨(List.range 7001).map mkFlash, false⟩], "enc"⟩
        ⟨[], []⟩ 7 "sig" "player"
        = some (Except.ok (⟨usersInsert [] ⟨7, "player", "enc", true⟩, []⟩, u))) ∧
    (∃ u db2, finalizeSignupProcess
        ⟨some "key", Except.ok (some ⟨some "fc", some "pfp"⟩),
          [Except.ok ⟨(List.range 7000).map mkFlash, false⟩], "enc"⟩
        ⟨[], []⟩ 7 "sig" "player" = some (Except.ok (db2, u)) ∧
      db2.users = usersInsert [] ⟨7, "player", "enc", true⟩ ∧
      db2.flashes.length = 7000) := by
  have hnd : (((List.range 7000).map mkFlash).map Flash.flash_id).Nodup := by
    have hcomp : Flash.flash_id ∘ mkFlash = id := rfl
    rw [List.map_map, hcomp, List.map_id]
    exact List.nodup_range 7000
  have hmain := finalize_ceiling
    ⟨some "key", Except.ok (some ⟨some "fc", some "pfp"⟩),
      [Except.ok ⟨(List.range 7001).map mkFlash, false⟩], "enc"⟩
    ⟨some "key", Except.ok (some ⟨some "fc", some "pfp"⟩),
      [Except.ok ⟨(List.range 7000).map mkFlash, false⟩], "enc"⟩
    ⟨[], []⟩ 7 "sig" "player" "key" "key"
    ⟨some "fc", some "pfp"⟩ ⟨some "fc", some "pfp"⟩
    ((List.range 7001).map mkFlash) ((List.range 7000).map mkFlash) [0] [0]
    rfl rfl (fetchAllFlashes_single _) (by simp)
    rfl rfl (fetchAllFlashes_single _) (by simp)
    hnd rfl
  exact ⟨by simp, by simp, hnd, hmain.1, hmain.2⟩

end Flashcastr
